import Mathlib

/-!
Verification of the haystack document store and reranker.

This file gives a shallow embedding of the two source files
`haystack/database/elasticsearch.py` and `haystack/ranker/laser.py` and
proves the specified properties about them.

Modelling conventions:
* JSON values are modelled by the inductive type `Json`, with numbers as
  rationals.
* Python dicts are modelled as association lists with unique keys; dict
  assignment `d[k] = v` is `dictSet` (overwrite in place, or append).
* Fallible code returns `Except StoreError`.
* The Elasticsearch client and the Laser embedding model are external
  collaborators: backend hits and embedding distances enter the embedding
  as explicit arguments.
-/

namespace Haystack

/-- JSON values, with numbers modelled as rationals. -/
inductive Json where
  | null : Json
  | bool (b : Bool) : Json
  | num (q : ℚ) : Json
  | str (s : String) : Json
  | arr (elems : List Json) : Json
  | obj (members : List (String × Json)) : Json
deriving Inhabited

/-- Python dict assignment `m[k] = v`: overwrite the entry in place when the
key is present, otherwise append a new entry at the end. -/
def dictSet {β : Type} : List (String × β) → String → β → List (String × β)
  | [], k, v => [(k, v)]
  | kv :: m, k, v => if kv.1 = k then (k, v) :: m else kv :: dictSet m k v

/-- Python dict `pop`: remove the entry with the given key. -/
def dictRemove {β : Type} (m : List (String × β)) (k : String) : List (String × β) :=
  m.filter (fun kv => kv.1 ≠ k)

/-- Errors of the document store.  The spec names them `MissingFieldError`,
`MissingConfigurationError` and `TemplateSubstitutionError`; the source raises
`KeyError` for a missing hit field, `RuntimeError` for a missing
`embedding_field` configuration, and `KeyError` / `ValueError` /
`json.JSONDecodeError` out of the custom-query template machinery. -/
inductive StoreError where
  | missingField (field : String) : StoreError
  | missingConfiguration : StoreError
  | templateKey (name : String) : StoreError
  | templateInvalid : StoreError
  | jsonDecode : StoreError
deriving DecidableEq, Inhabited

/-- The error kinds that the spec groups under `TemplateSubstitutionError`. -/
def StoreError.isTemplateSubstitutionError : StoreError → Bool
  | .templateKey _ => true
  | .templateInvalid => true
  | .jsonDecode => true
  | _ => false

/-- A raw Elasticsearch hit: identifier, native score (`none` models a JSON
null score) and the `_source` field map. -/
structure ESHit where
  id : String
  score : Option ℚ
  source : List (String × Json)

/-- The decoded `Document` produced by `_convert_es_hit_to_document`
(the fields of `haystack.database.base.Document` that decoding fills in). -/
structure ESDocument where
  id : String
  text : Json
  external_source_id : Option Json
  meta : List (String × Json)
  query_score : Option ℚ

/-- The configuration of an `ElasticsearchDocumentStore` fixed by
`__init__` (the fields that the modelled operations read). -/
structure ESStore where
  index : String
  search_fields : List String
  text_field : String
  name_field : String
  external_source_id_field : String
  embedding_field : Option String
  excluded_meta_data : Option (List String)

/-- Embedding of `_convert_es_hit_to_document` (elasticsearch.py lines
193-205): meta is every source field except the text field and the
external-source-id field, with the configured name field renamed to `name`
(popping a missing name field yields a null value); `text` is the mandatory
source field (Python raises `KeyError` when absent); `query_score` is the
native score plus `score_adjustment` when the native score is truthy,
otherwise `None`. -/
def convertHit (store : ESStore) (score_adjustment : ℚ) (hit : ESHit) :
    Except StoreError ESDocument :=
  let meta0 := hit.source.filter
    (fun kv => kv.1 ≠ store.text_field ∧ kv.1 ≠ store.external_source_id_field)
  let nameVal := ((List.lookup store.name_field meta0).getD Json.null)
  let meta := dictSet (dictRemove meta0 store.name_field) "name" nameVal
  match List.lookup store.text_field hit.source with
  | none => .error (.missingField store.text_field)
  | some t =>
      .ok { id := hit.id
            text := t
            external_source_id := List.lookup store.external_source_id_field hit.source
            meta := meta
            query_score :=
              match hit.score with
              | none => none
              | some s => if s = 0 then none else some (s + score_adjustment) }

/-- Decode a list of hits, propagating the first failure (the Python list
comprehension raises out of the whole call). -/
def mapExcept {α β : Type} (f : α → Except StoreError β) : List α → Except StoreError (List β)
  | [] => .ok []
  | a :: l =>
      match f a with
      | .error e => .error e
      | .ok b =>
          match mapExcept f l with
          | .error e => .error e
          | .ok bs => .ok (b :: bs)

/-- The query body built by `query_by_embedding` (elasticsearch.py lines
160-185): a `script_score` query whose script source is the literal
`cosineSimilarity(params.query_vector,doc['<embedding_field>']) + 1.0`,
with the query embedding as script parameter; a truthy
`candidate_doc_ids` replaces the `match_all` base query by a bool query
filtered on those ids; a truthy `excluded_meta_data` appends a `_source`
excludes clause. -/
def queryByEmbeddingBody (store : ESStore) (emb : String) (query_emb : List ℚ)
    (top_k : ℕ) (candidate_doc_ids : Option (List String)) : Json :=
  let baseQuery : Json :=
    if (candidate_doc_ids.getD []) ≠ [] then
      Json.obj [("bool", Json.obj
        [("should", Json.arr [Json.obj [("match_all", Json.obj [])]]),
         ("filter", Json.arr [Json.obj [("terms", Json.obj
            [("_id", Json.arr ((candidate_doc_ids.getD []).map Json.str))])]])])]
    else Json.obj [("match_all", Json.obj [])]
  Json.obj
    ([("size", Json.num top_k),
      ("query", Json.obj [("script_score", Json.obj
        [("query", baseQuery),
         ("script", Json.obj
           [("source", Json.str
              ("cosineSimilarity(params.query_vector,doc[\x27" ++ emb ++ "\x27]) + 1.0")),
            ("params", Json.obj [("query_vector", Json.arr (query_emb.map Json.num))])])])])]
     ++ match store.excluded_meta_data with
        | some ex => if ex ≠ [] then [("_source", Json.obj [("excludes", Json.arr (ex.map Json.str))])] else []
        | none => [])

/-- Embedding of `query_by_embedding` (elasticsearch.py lines 157-191).
A falsy `embedding_field` raises `RuntimeError` (the spec's
`MissingConfigurationError`) before anything else; otherwise the body is
built and every hit returned by the backend is decoded with
`score_adjustment = -1`.  The backend call itself is external, so the
backend's hits are an argument and the built body is returned alongside the
decoded documents. -/
def query_by_embedding (store : ESStore) (query_emb : List ℚ) (top_k : ℕ)
    (candidate_doc_ids : Option (List String)) (hits : List ESHit) :
    Except StoreError (Json × List ESDocument) :=
  match store.embedding_field with
  | none => .error .missingConfiguration
  | some emb =>
      if emb = "" then .error .missingConfiguration
      else
        let body := queryByEmbeddingBody store emb query_emb top_k candidate_doc_ids
        (mapExcept (convertHit store (-1)) hits).map (fun docs => (body, docs))

/-- Embedding of `write_documents` (elasticsearch.py lines 87-92): the loop
mutates every document dict of the caller in place, setting `_op_type` to
`create` and `_index` to the store index, before handing the same list to
`bulk`.  In-place mutation is modelled by returning the updated list, which
is the caller's post-call view of the dicts it passed in. -/
def write_documents (index : String) (documents : List (List (String × Json))) :
    List (List (String × Json)) :=
  documents.map (fun doc => dictSet (dictSet doc "_op_type" (Json.str "create")) "_index" (Json.str index))

/-- A question/answers record of the SQuAD evaluation file. -/
structure SquadQA where
  question : String
  answers : List Json

/-- A paragraph of the SQuAD evaluation file: the `context` text and its
associated questions (the schema fields the loader distinguishes). -/
structure SquadParagraph where
  context : String
  qas : List SquadQA

/-- A document of the SQuAD evaluation file: `title` and `paragraphs`. -/
structure SquadDoc where
  title : String
  paragraphs : List SquadParagraph

/-- The dict built for one paragraph by `add_eval_data` (elasticsearch.py
lines 226-258): the text field holds the context, `doc_id` holds
`str(hash(context))`, plus the bulk-control keys and the title under the
configured name field. -/
def evalDocRecord (text_field name_field : String) (hashStr : String → ℤ)
    (doc_index : String) (title context : String) : List (String × Json) :=
  dictSet (dictSet (dictSet (dictSet (dictSet []
    text_field (Json.str context))
    "doc_id" (Json.str (toString (hashStr context))))
    "_op_type" (Json.str "create"))
    "_index" (Json.str doc_index))
    name_field (Json.str title)

/-- The dict built for one labelled question by `add_eval_data`
(elasticsearch.py lines 238-246). -/
def evalQuestionRecord (hashStr : String → ℤ) (doc_index label_index : String)
    (context : String) (qa : SquadQA) : List (String × Json) :=
  [("question", Json.str qa.question),
   ("answers", Json.arr qa.answers),
   ("doc_id", Json.str (toString (hashStr context))),
   ("origin", Json.str "gold_label"),
   ("index_name", Json.str doc_index),
   ("_op_type", Json.str "create"),
   ("_index", Json.str label_index)]

/-- Embedding of `add_eval_data` (elasticsearch.py lines 207-261), returning
the two bulk batches (documents, labelled questions).  The join key of a
paragraph is `str(hash(context))`, where `hash` is CPython's builtin string
hash; that hash depends on the per-process hash salt (`PYTHONHASHSEED`), so
it is modelled as the explicit argument `hashStr` — one `hashStr` per
interpreter run. -/
def add_eval_data (text_field name_field : String) (hashStr : String → ℤ)
    (data : List SquadDoc) (doc_index label_index : String) :
    List (List (String × Json)) × List (List (String × Json)) :=
  (data.flatMap (fun d => d.paragraphs.map
      (fun p => evalDocRecord text_field name_field hashStr doc_index d.title p.context)),
   data.flatMap (fun d => d.paragraphs.flatMap
      (fun p => p.qas.map (evalQuestionRecord hashStr doc_index label_index p.context))))

/-! ### Custom-query templates (`string.Template`) -/

/-- A template identifier starts with an underscore or an ASCII letter
(Python's default `Template` pattern with the ASCII flag). -/
def isIdStart (c : Char) : Bool := c = '_' || c.isAlpha

/-- Subsequent identifier characters also allow ASCII digits. -/
def isIdChar (c : Char) : Bool := c = '_' || c.isAlpha || c.isDigit

/-- Failures of `Template.substitute`: `KeyError` for an unbound placeholder,
`ValueError` for an invalid `$` sequence. -/
inductive TemplateError where
  | unbound (name : String) : TemplateError
  | invalid : TemplateError
deriving DecidableEq

/-- Scanner state of the substitution pass: outside any placeholder, just
after a `$`, inside `$\x7b...\x7d` with the name so far, or inside an
unbraced `$name` with the name so far. -/
inductive SMode where
  | normal : SMode
  | dollar : SMode
  | braceAcc (acc : List Char) : SMode
  | identAcc (acc : List Char) : SMode

/-- Resolve a placeholder name against the substitution mapping. -/
def resolveName (binds : List (String × String)) (acc : List Char) :
    Except TemplateError (List Char) :=
  match List.lookup (String.mk acc) binds with
  | some v => .ok v.toList
  | none => .error (.unbound (String.mk acc))

/-- Embedding of `Template.substitute` as a character scanner: `$$` is a
literal `$`, `$\x7bname\x7d` and `$name` are replaced by the bound value
(`KeyError` when unbound), and any other `$` sequence is a `ValueError`. -/
def substRun (binds : List (String × String)) :
    List Char → SMode → Except TemplateError (List Char)
  | [], .normal => .ok []
  | [], .dollar => .error .invalid
  | [], .braceAcc _ => .error .invalid
  | [], .identAcc acc => resolveName binds acc
  | c :: cs, .normal =>
      if c = '$' then substRun binds cs .dollar
      else (substRun binds cs .normal).map (fun t => c :: t)
  | c :: cs, .dollar =>
      if c = '$' then (substRun binds cs .normal).map (fun t => '$' :: t)
      else if c = '\x7b' then substRun binds cs (.braceAcc [])
      else if isIdStart c then substRun binds cs (.identAcc [c])
      else .error .invalid
  | c :: cs, .braceAcc acc =>
      if acc = [] then
        if isIdStart c then substRun binds cs (.braceAcc [c]) else .error .invalid
      else if isIdChar c then substRun binds cs (.braceAcc (acc ++ [c]))
      else if c = '\x7d' then
        match resolveName binds acc with
        | .ok v => (substRun binds cs .normal).map (fun t => v ++ t)
        | .error e => .error e
      else .error .invalid
  | c :: cs, .identAcc acc =>
      if isIdChar c then substRun binds cs (.identAcc (acc ++ [c]))
      else
        match resolveName binds acc with
        | .ok v =>
            if c = '$' then (substRun binds cs .dollar).map (fun t => v ++ t)
            else (substRun binds cs .normal).map (fun t => v ++ c :: t)
        | .error e => .error e

/-- The placeholder names a template references, collected by the same scan
as `substRun` (collection stops at a syntactically invalid `$` sequence,
where substitution fails regardless of the bindings). -/
def namesRun : List Char → SMode → List String
  | [], .identAcc acc => [String.mk acc]
  | [], _ => []
  | c :: cs, .normal =>
      if c = '$' then namesRun cs .dollar else namesRun cs .normal
  | c :: cs, .dollar =>
      if c = '$' then namesRun cs .normal
      else if c = '\x7b' then namesRun cs (.braceAcc [])
      else if isIdStart c then namesRun cs (.identAcc [c])
      else []
  | c :: cs, .braceAcc acc =>
      if acc = [] then
        if isIdStart c then namesRun cs (.braceAcc [c]) else []
      else if isIdChar c then namesRun cs (.braceAcc (acc ++ [c]))
      else if c = '\x7d' then String.mk acc :: namesRun cs .normal
      else []
  | c :: cs, .identAcc acc =>
      if isIdChar c then namesRun cs (.identAcc (acc ++ [c]))
      else String.mk acc :: (if c = '$' then namesRun cs .dollar else namesRun cs .normal)

/-- A valid template identifier: an identifier-start character followed by
identifier characters. -/
def isValidIdent (s : String) : Bool :=
  match s.toList with
  | [] => false
  | c :: cs => isIdStart c && cs.all isIdChar

/-- `Template(custom_query).substitute(**substitutions)`. -/
def templateSubstitute (binds : List (String × String)) (t : String) :
    Except TemplateError String :=
  (substRun binds t.toList .normal).map String.mk

/-- A template of the custom-query placeholder grammar (spec section 6:
literal text interleaved with `$\x7bidentifier\x7d` placeholders):
`pieces = [(lit1, k1), ..., (litn, kn)]` with a trailing literal `tail`
renders as `lit1 $\x7bk1\x7d lit2 $\x7bk2\x7d ... litn $\x7bkn\x7d tail`. -/
def templateOfPieces : List (List Char × String) → List Char → List Char
  | [], tail => tail
  | pc :: rest, tail =>
      pc.1 ++ (('$' :: '\x7b' :: pc.2.toList) ++ ('\x7d' :: templateOfPieces rest tail))

/-- The same pieces with every placeholder replaced by the value its name is
bound to in the substitution mapping. -/
def substitutedOfPieces (binds : List (String × String)) :
    List (List Char × String) → List Char → List Char
  | [], tail => tail
  | pc :: rest, tail =>
      pc.1 ++ (((List.lookup pc.2 binds).getD "").toList ++
        substitutedOfPieces binds rest tail)

/-- The placeholder names referenced by a template. -/
def placeholderNames (t : String) : List String :=
  namesRun t.toList .normal

/-! ### `json.dumps` for string lists and `json.loads` -/

/-- Lowercase hexadecimal digit. -/
def hexDigit (n : ℕ) : Char :=
  if n < 10 then Char.ofNat ('0'.toNat + n) else Char.ofNat ('a'.toNat + n - 10)

/-- Four lowercase hexadecimal digits. -/
def hex4 (n : ℕ) : List Char :=
  [hexDigit (n / 4096 % 16), hexDigit (n / 256 % 16), hexDigit (n / 16 % 16), hexDigit (n % 16)]

/-- Escaping of one character by `json.dumps` (default `ensure_ascii=True`;
characters beyond the basic multilingual plane are not modelled). -/
def escapeJsonChar (c : Char) : List Char :=
  if c = '"' then ['\\', '"']
  else if c = '\\' then ['\\', '\\']
  else if c = '\n' then ['\\', 'n']
  else if c = '\t' then ['\\', 't']
  else if c = '\r' then ['\\', 'r']
  else if c.toNat = 8 then ['\\', 'b']
  else if c.toNat = 12 then ['\\', 'f']
  else if c.toNat < 32 ∨ 126 < c.toNat then '\\' :: 'u' :: hex4 c.toNat
  else [c]

/-- `json.dumps` of one string. -/
def pyJsonDumpString (s : String) : String :=
  "\"" ++ String.mk (s.toList.flatMap escapeJsonChar) ++ "\""

/-- `json.dumps` of a list of strings: the values joined by `", "` inside
square brackets (the default separator includes a space). -/
def dumpsStringList (vs : List String) : String :=
  "[" ++ String.intercalate ", " (vs.map pyJsonDumpString) ++ "]"

/-- JSON whitespace. -/
def isWs (c : Char) : Bool := c = ' ' || c = '\t' || c = '\n' || c = '\r'

/-- Skip JSON whitespace. -/
def skipWs (cs : List Char) : List Char := cs.dropWhile isWs

/-- Unescape one backslash escape of a JSON string (`\\uXXXX` is not
modelled). -/
def unescapeChar (c : Char) : Option Char :=
  if c = '"' then some '"'
  else if c = '\\' then some '\\'
  else if c = '/' then some '/'
  else if c = 'n' then some '\n'
  else if c = 't' then some '\t'
  else if c = 'r' then some '\r'
  else if c = 'b' then some (Char.ofNat 8)
  else if c = 'f' then some (Char.ofNat 12)
  else none

/-- Parse the body of a JSON string after the opening quote, up to and
including the closing quote (strict mode: raw control characters are
rejected). -/
def parseStringBody : List Char → Option (List Char × List Char)
  | [] => none
  | '"' :: rest => some ([], rest)
  | '\\' :: c :: rest =>
      match unescapeChar c with
      | some u => (parseStringBody rest).map (fun p => (u :: p.1, p.2))
      | none => none
  | c :: rest =>
      if c.toNat < 32 then none
      else (parseStringBody rest).map (fun p => (c :: p.1, p.2))

/-- Longest prefix of ASCII digits. -/
def takeDigits : List Char → List Char × List Char
  | [] => ([], [])
  | c :: cs =>
      if c.isDigit then
        let p := takeDigits cs
        (c :: p.1, p.2)
      else ([], c :: cs)

/-- Value of a digit string. -/
def digitsToNat (ds : List Char) : ℕ :=
  ds.foldl (fun n c => 10 * n + (c.toNat - '0'.toNat)) 0

/-- Parse the fraction digits after the decimal point. -/
def parseFrac (cs : List Char) : Option (ℚ × List Char) :=
  match takeDigits cs with
  | ([], _) => none
  | (ds, rest) => some ((digitsToNat ds : ℚ) / (10 : ℚ) ^ ds.length, rest)

/-- Parse the exponent after `e`/`E`. -/
def parseExp (cs : List Char) : Option (ℤ × List Char) :=
  let p := match cs with
    | '+' :: r => ((1 : ℤ), r)
    | '-' :: r => ((-1 : ℤ), r)
    | _ => ((1 : ℤ), cs)
  match takeDigits p.2 with
  | ([], _) => none
  | (ds, rest) => some (p.1 * (digitsToNat ds : ℤ), rest)

/-- Parse a JSON number (integer part with no leading zero, optional
fraction, optional exponent). -/
def parseNumber (cs : List Char) : Option (ℚ × List Char) := do
  let (neg, cs1) := match cs with | '-' :: r => (true, r) | _ => (false, cs)
  let (ds, cs2) := takeDigits cs1
  if ds = [] then none
  else if ds.head? = some '0' ∧ 1 < ds.length then none
  else
    let base : ℚ := (digitsToNat ds : ℚ)
    let (v1, cs3) ← match cs2 with
      | '.' :: r => (parseFrac r).map (fun p => (base + p.1, p.2))
      | _ => pure (base, cs2)
    let (v2, cs4) ← match cs3 with
      | 'e' :: r => (parseExp r).map (fun p => (v1 * (10 : ℚ) ^ p.1, p.2))
      | 'E' :: r => (parseExp r).map (fun p => (v1 * (10 : ℚ) ^ p.1, p.2))
      | _ => pure (v1, cs3)
    pure (if neg then -v2 else v2, cs4)

/-- A partially parsed JSON container: an array with the elements so far, or
an object with the members so far and the key awaiting its value. -/
inductive JFrame where
  | arrF (acc : List Json) : JFrame
  | objF (acc : List (String × Json)) (key : String) : JFrame

/-- Parser state: about to parse a value, or holding a finished value to be
attached to the enclosing container. -/
inductive JState where
  | goVal (stk : List JFrame) : JState
  | goRed (stk : List JFrame) (j : Json) : JState

/-- One-pass JSON parser with an explicit container stack (fuel-indexed;
every step consumes at least one character, so `jsonParse` supplies enough
fuel).  Duplicate object keys keep the last value, as `json.loads` does. -/
def jstep : ℕ → JState → List Char → Option (Json × List Char)
  | 0, _, _ => none
  | fuel + 1, .goVal stk, cs =>
      match skipWs cs with
      | '\x7b' :: rest =>
          match skipWs rest with
          | '\x7d' :: rest2 => jstep fuel (.goRed stk (Json.obj [])) rest2
          | '"' :: rest2 =>
              match parseStringBody rest2 with
              | some (k, rest3) =>
                  match skipWs rest3 with
                  | ':' :: rest4 => jstep fuel (.goVal (.objF [] (String.mk k) :: stk)) rest4
                  | _ => none
              | none => none
          | _ => none
      | '[' :: rest =>
          match skipWs rest with
          | ']' :: rest2 => jstep fuel (.goRed stk (Json.arr [])) rest2
          | rest2 => jstep fuel (.goVal (.arrF [] :: stk)) rest2
      | '"' :: rest =>
          match parseStringBody rest with
          | some (s, rest2) => jstep fuel (.goRed stk (Json.str (String.mk s))) rest2
          | none => none
      | 't' :: 'r' :: 'u' :: 'e' :: rest => jstep fuel (.goRed stk (Json.bool true)) rest
      | 'f' :: 'a' :: 'l' :: 's' :: 'e' :: rest => jstep fuel (.goRed stk (Json.bool false)) rest
      | 'n' :: 'u' :: 'l' :: 'l' :: rest => jstep fuel (.goRed stk Json.null) rest
      | cs2 =>
          match parseNumber cs2 with
          | some (q, rest) => jstep fuel (.goRed stk (Json.num q)) rest
          | none => none
  | fuel + 1, .goRed stk j, cs =>
      match stk with
      | [] => some (j, cs)
      | .arrF acc :: stk2 =>
          match skipWs cs with
          | ',' :: rest => jstep fuel (.goVal (.arrF (acc ++ [j]) :: stk2)) rest
          | ']' :: rest => jstep fuel (.goRed stk2 (Json.arr (acc ++ [j]))) rest
          | _ => none
      | .objF acc k :: stk2 =>
          match skipWs cs with
          | ',' :: rest =>
              match skipWs rest with
              | '"' :: rest2 =>
                  match parseStringBody rest2 with
                  | some (k2, rest3) =>
                      match skipWs rest3 with
                      | ':' :: rest4 =>
                          jstep fuel (.goVal (.objF (dictSet acc k j) (String.mk k2) :: stk2)) rest4
                      | _ => none
                  | none => none
              | _ => none
          | '\x7d' :: rest => jstep fuel (.goRed stk2 (Json.obj (dictSet acc k j))) rest
          | _ => none

/-- `json.loads`: parse one JSON value and require only whitespace after it. -/
def jsonParse (s : String) : Option Json :=
  match jstep (2 * s.length + 4) (.goVal []) s.toList with
  | some (j, rest) => if skipWs rest = [] then some j else none
  | none => none

/-- The substitution mapping of the custom-query branch of `query`
(elasticsearch.py lines 120-125): `question` bound to the query string, then
every filter key bound to its `json.dumps`-serialized value list (a filter
named `question` overwrites the query binding, as dict assignment does).
Filter values are string lists, as in the repository's usage. -/
def buildSubstitutions (query : String) (filters : List (String × List String)) :
    List (String × String) :=
  filters.foldl (fun m kv => dictSet m kv.1 (dumpsStringList kv.2)) [("question", query)]

/-- Embedding of the custom-query branch of `query` (elasticsearch.py lines
117-127): substitute the placeholders of the template and parse the result
as the backend payload.  `KeyError` / `ValueError` from the substitution and
`JSONDecodeError` from parsing are the spec's `TemplateSubstitutionError`. -/
def customQueryBody (custom_query : String) (query : String)
    (filters : List (String × List String)) : Except StoreError Json :=
  let substitutions := buildSubstitutions query filters
  match templateSubstitute substitutions custom_query with
  | .error (.unbound p) => .error (.templateKey p)
  | .error .invalid => .error .templateInvalid
  | .ok s =>
      match jsonParse s with
      | none => .error .jsonDecode
      | some body => .ok body

/-- Look up a key of a JSON object. -/
def jsonGet (j : Json) (k : String) : Option Json :=
  match j with
  | .obj kvs => List.lookup k kvs
  | _ => none

/-- Follow a path of object keys. -/
def jsonGetPath : Json → List String → Option Json
  | j, [] => some j
  | j, k :: ks =>
      match jsonGet j k with
      | some j2 => jsonGetPath j2 ks
      | none => none

/-! ### The Laser reranker -/

/-- The fields of a `Document` the reranker touches: its text and the
`score` attribute that `rerank` injects (`id` keeps distinct documents
distinct). -/
structure RDoc where
  id : String
  text : String
  score : Option ℚ
deriving DecidableEq, Inhabited

/-- The dictionary `rerank` returns. -/
structure RankedResult where
  query : String
  top_k : ℕ
  ranked_documents : List RDoc
deriving DecidableEq

/-- The in-place `doc["score"] = score` assignment. -/
def setScore (d : RDoc) (s : ℚ) : RDoc := { d with score := some s }

/-- State of the ranking loop: the caller's document list (mutated in place)
and the positions appended to `ranked_documents` so far (appending a Python
object reference is modelled by appending the document's position, and the
referenced objects are materialized from the final list state). -/
structure RerankSt where
  docs : List RDoc
  ranked : List ℕ

/-- One iteration of the ranking loop of `rerank` (laser.py lines 42-54):
for the pair `(idx, distance)`, every document whose text equals
`corpus[idx]` gets its `score` attribute set to `1 - distance` and is
appended to `ranked_documents`. -/
def rerankPass (corpus : List String) (st : RerankSt) (p : ℕ × ℚ) : RerankSt :=
  let passage := corpus.getD p.1 ""
  let sc := 1 - p.2
  { docs := st.docs.map (fun d => if d.text = passage then setScore d sc else d)
    ranked := st.ranked ++
      (List.range st.docs.length).filter (fun j => (st.docs.getD j default).text = passage) }

/-- Embedding of `rerank` (laser.py lines 21-63).  The Laser model and
`scipy.spatial.distance.cdist` are external: the cosine distances of the
documents to the query arrive as the argument `distances` (one entry per
corpus entry).  `sorted(closests, key=lambda x: x[1])` is a stable sort by
distance, embedded as an insertion sort that keeps the original order of
equal keys. -/
def rerank (query : String) (documents : List RDoc) (distances : List ℚ)
    (top_k : ℕ) : RankedResult :=
  let corpus := documents.map (fun d => d.text)
  let closests := List.insertionSort (fun a b : ℕ × ℚ => a.2 ≤ b.2)
    ((List.range distances.length).zip distances)
  let final := closests.foldl (rerankPass corpus) ⟨documents, []⟩
  let ranked_documents := final.ranked.map (fun j => final.docs.getD j default)
  { query := query, top_k := top_k, ranked_documents := ranked_documents.take top_k }

/-! ### Theorems -/

/-- Looking up the key just set by `dictSet` yields the new value. -/
theorem lookup_dictSet_self {β : Type} (m : List (String × β)) (k : String) (v : β) :
    List.lookup k (dictSet m k v) = some v := by
  induction m with
  | nil => simp [dictSet, List.lookup]
  | cons kv m ih =>
      by_cases h : kv.1 = k
      · simp [dictSet, h, List.lookup]
      · have hb : (k == kv.1) = false := beq_eq_false_iff_ne.mpr (Ne.symm h)
        simp [dictSet, h, List.lookup, hb, ih]

/-- Looking up a different key is unaffected by `dictSet`. -/
theorem lookup_dictSet_ne {β : Type} (m : List (String × β)) (k k2 : String) (v : β)
    (hne : k2 ≠ k) : List.lookup k2 (dictSet m k v) = List.lookup k2 m := by
  have hb : (k2 == k) = false := beq_eq_false_iff_ne.mpr hne
  induction m with
  | nil => simp [dictSet, List.lookup, hb]
  | cons kv m ih =>
      by_cases h : kv.1 = k
      · subst h
        simp [dictSet, List.lookup, hb]
      · simp only [dictSet, List.lookup, if_neg h]
        cases hc : (k2 == kv.1) with
        | true => simp [List.lookup, hc]
        | false => simp [List.lookup, hc, ih]

/-- C7: for every backend hit whose source lacks the configured text field,
decoding the hit into a Document fails with the missing-field error. -/
theorem claim_C7_missing_text_field (store : ESStore) (adj : ℚ) (hit : ESHit)
    (habs : List.lookup store.text_field hit.source = none) :
    convertHit store adj hit = .error (.missingField store.text_field) := by
  simp [convertHit, habs]

/-- C7 witness: a concrete hit with no text field fails to decode. -/
theorem claim_C7_missing_text_field_witness :
    List.lookup "text" (ESHit.source ⟨"h1", some 1, [("name", Json.str "n")]⟩) = none ∧
    convertHit ⟨"document", ["text"], "text", "name", "external_source_id", none, none⟩ 0
        ⟨"h1", some 1, [("name", Json.str "n")]⟩ = .error (.missingField "text") :=
  ⟨rfl, claim_C7_missing_text_field _ 0 _ rfl⟩

/-- C8: for every store constructed without an embedding field configured,
`query_by_embedding` fails with the missing-configuration error for every
choice of arguments and every backend response — in particular the failure
does not depend on the backend. -/
theorem claim_C8_missing_embedding_field (store : ESStore)
    (hemb : store.embedding_field = none) (query_emb : List ℚ) (top_k : ℕ)
    (candidate_doc_ids : Option (List String)) (hits : List ESHit) :
    query_by_embedding store query_emb top_k candidate_doc_ids hits =
      .error .missingConfiguration := by
  simp [query_by_embedding, hemb]

/-- C8 witness: a concrete store with no embedding field rejects the call. -/
theorem claim_C8_missing_embedding_field_witness :
    ESStore.embedding_field ⟨"document", ["text"], "text", "name", "external_source_id", none, none⟩ = none ∧
    query_by_embedding ⟨"document", ["text"], "text", "name", "external_source_id", none, none⟩
        [1, 0] 10 none [⟨"h1", some 2, [("text", Json.str "x")]⟩] =
      .error .missingConfiguration :=
  ⟨rfl, claim_C8_missing_embedding_field _ rfl [1, 0] 10 none _⟩

/-- The query-score behaviour of `convertHit`: a falsy native score decodes
to `none`, and a non-zero native score decodes to the score plus the
adjustment. -/
theorem convertHit_query_score (store : ESStore) (adj : ℚ) (hit : ESHit) (d : ESDocument)
    (hok : convertHit store adj hit = .ok d) :
    ((hit.score = none ∨ hit.score = some 0) → d.query_score = none) ∧
    (∀ s : ℚ, hit.score = some s → s ≠ 0 → d.query_score = some (s + adj)) := by
  cases hl : List.lookup store.text_field hit.source with
  | none => simp [convertHit, hl] at hok
  | some t =>
      simp only [convertHit, hl, Except.ok.injEq] at hok
      subst hok
      constructor
      · rintro (hs | hs) <;> simp [hs]
      · intro s hs hs0
        simp [hs, hs0]

/-- C1: for every successfully decoded hit, `query_score` is `none` when the
native score is absent (null) or zero, and is the native score plus
`score_adjustment` otherwise. -/
theorem claim_C1_query_score (store : ESStore) (adj : ℚ) (hit : ESHit) (d : ESDocument)
    (hok : convertHit store adj hit = .ok d) :
    ((hit.score = none ∨ hit.score = some 0) → d.query_score = none) ∧
    (∀ s : ℚ, hit.score = some s → s ≠ 0 → d.query_score = some (s + adj)) :=
  convertHit_query_score store adj hit d hok

/-- C1 witness: decoding a hit with native score `0.8` and
`score_adjustment = -1` yields `query_score = -0.2`; native score `0` and a
null native score both yield `query_score = none`. -/
theorem claim_C1_query_score_witness :
    (convertHit ⟨"document", ["text"], "text", "name", "external_source_id", none, none⟩ (-1)
        ⟨"h1", some (4/5), [("text", Json.str "x")]⟩ =
      .ok ⟨"h1", Json.str "x", none, [("name", Json.null)], some (4/5 + -1)⟩) ∧
    ESHit.score ⟨"h1", some (4/5), [("text", Json.str "x")]⟩ = some (4/5) ∧
    (4 / 5 : ℚ) ≠ 0 ∧
    ESDocument.query_score ⟨"h1", Json.str "x", none, [("name", Json.null)], some (4/5 + -1)⟩ =
      some (-(2/10)) ∧
    ESDocument.query_score ⟨"h2", Json.str "x", none, [("name", Json.null)], none⟩ = none := by
  refine ⟨by with_unfolding_all rfl, rfl, by norm_num, ?_, ?_⟩
  · have h := (claim_C1_query_score
      ⟨"document", ["text"], "text", "name", "external_source_id", none, none⟩ (-1)
      ⟨"h1", some (4/5), [("text", Json.str "x")]⟩
      ⟨"h1", Json.str "x", none, [("name", Json.null)], some (4/5 + -1)⟩
      (by with_unfolding_all rfl)).2 (4/5) rfl (by norm_num)
    rw [h]
    norm_num
  · exact (claim_C1_query_score
      ⟨"document", ["text"], "text", "name", "external_source_id", none, none⟩ (-1)
      ⟨"h2", some 0, [("text", Json.str "x")]⟩
      ⟨"h2", Json.str "x", none, [("name", Json.null)], none⟩
      (by with_unfolding_all rfl)).1 (Or.inr rfl)

/-- C10: `write_documents` updates the caller's document dicts in place,
setting `_op_type` to `create` and `_index` to the store's configured index
on every document, and leaving every other key unchanged; the updated dicts
are what the caller observes after the call. -/
theorem claim_C10_write_documents_mutation (index : String)
    (documents : List (List (String × Json))) :
    (write_documents index documents).length = documents.length ∧
    ∀ (i : ℕ) (doc : List (String × Json)), documents[i]? = some doc →
      ∃ doc2, (write_documents index documents)[i]? = some doc2 ∧
        List.lookup "_op_type" doc2 = some (Json.str "create") ∧
        List.lookup "_index" doc2 = some (Json.str index) ∧
        ∀ k, k ≠ "_op_type" → k ≠ "_index" → List.lookup k doc2 = List.lookup k doc := by
  refine ⟨by simp [write_documents], fun i doc hdoc => ?_⟩
  refine ⟨dictSet (dictSet doc "_op_type" (Json.str "create")) "_index" (Json.str index),
    ?_, ?_, lookup_dictSet_self _ _ _, ?_⟩
  · rw [write_documents, List.getElem?_map, hdoc]
    rfl
  · rw [lookup_dictSet_ne _ _ _ _ (by decide), lookup_dictSet_self]
  · intro k hk1 hk2
    rw [lookup_dictSet_ne _ _ _ _ hk2, lookup_dictSet_ne _ _ _ _ hk1]

/-- C10 witness: the mutation is observable on a concrete document list. -/
theorem claim_C10_write_documents_mutation_witness :
    ([[("text", Json.str "x")]] : List (List (String × Json)))[0]? =
      some [("text", Json.str "x")] ∧
    ∃ doc2, (write_documents "document" [[("text", Json.str "x")]])[0]? = some doc2 ∧
      List.lookup "_op_type" doc2 = some (Json.str "create") ∧
      List.lookup "_index" doc2 = some (Json.str "document") ∧
      ∀ k, k ≠ "_op_type" → k ≠ "_index" →
        List.lookup k doc2 = List.lookup k [("text", Json.str "x")] :=
  ⟨rfl, (claim_C10_write_documents_mutation "document" [[("text", Json.str "x")]]).2 0
    [("text", Json.str "x")] rfl⟩

/-- The document record built by `add_eval_data` for a paragraph carries the
join key `str(hash(context))` under `doc_id` (as long as the configured text
and name fields are not themselves named `doc_id`). -/
theorem lookup_doc_id_evalDocRecord (text_field name_field : String)
    (hashStr : String → ℤ) (doc_index title ctx : String)
    (hnf : name_field ≠ "doc_id") :
    List.lookup "doc_id" (evalDocRecord text_field name_field hashStr doc_index title ctx) =
      some (Json.str (toString (hashStr ctx))) := by
  unfold evalDocRecord
  rw [lookup_dictSet_ne _ _ _ _ (Ne.symm hnf),
    lookup_dictSet_ne _ _ _ _ (by decide),
    lookup_dictSet_ne _ _ _ _ (by decide),
    lookup_dictSet_self]

/-- The labelled-question record built by `add_eval_data` carries the join
key `str(hash(context))` under `doc_id`. -/
theorem lookup_doc_id_evalQuestionRecord (hashStr : String → ℤ)
    (doc_index label_index ctx : String) (qa : SquadQA) :
    List.lookup "doc_id" (evalQuestionRecord hashStr doc_index label_index ctx qa) =
      some (Json.str (toString (hashStr ctx))) := by
  simp [evalQuestionRecord, List.lookup]

/-- C9: within one interpreter run (one `hashStr`), every labelled question
written by `add_eval_data` carries the same `doc_id` as the document record
built from its source paragraph — but the join key is `str(hash(context))`
for the process string hash, so two runs with different process hashes
produce different label records for identical content: the key is not a
function of the paragraph text alone. -/
theorem claim_C9_eval_join_keys (text_field name_field : String) (hashStr : String → ℤ)
    (data : List SquadDoc) (doc_index label_index : String)
    (hnf : name_field ≠ "doc_id") :
    (∀ q ∈ (add_eval_data text_field name_field hashStr data doc_index label_index).2,
      ∃ dr ∈ (add_eval_data text_field name_field hashStr data doc_index label_index).1,
        List.lookup "doc_id" dr = List.lookup "doc_id" q ∧
        ∃ ctx : String, List.lookup "doc_id" dr = some (Json.str (toString (hashStr ctx)))) ∧
    ∃ h1 h2 : String → ℤ, ∃ d : List SquadDoc,
      (add_eval_data text_field name_field h1 d doc_index label_index).2 ≠
        (add_eval_data text_field name_field h2 d doc_index label_index).2 := by
  constructor
  · intro q hq
    simp only [add_eval_data, List.mem_flatMap, List.mem_map] at hq
    obtain ⟨d, hd, p, hp, qa, hqa, rfl⟩ := hq
    refine ⟨evalDocRecord text_field name_field hashStr doc_index d.title p.context, ?_, ?_, ?_⟩
    · simp only [add_eval_data, List.mem_flatMap, List.mem_map]
      exact ⟨d, hd, p, hp, rfl⟩
    · rw [lookup_doc_id_evalDocRecord _ _ _ _ _ _ hnf,
        lookup_doc_id_evalQuestionRecord]
    · exact ⟨p.context, lookup_doc_id_evalDocRecord _ _ _ _ _ _ hnf⟩
  · refine ⟨fun _ => 0, fun _ => 1, [⟨"T", [⟨"c", [⟨"q", []⟩]⟩]⟩], fun hcontra => ?_⟩
    have h0 := congrArg (fun l => List.lookup "doc_id" (l.headD [])) hcontra
    simp only [add_eval_data, List.flatMap_cons, List.flatMap_nil, List.map_cons,
      List.map_nil, List.append_nil, List.headD_cons] at h0
    rw [lookup_doc_id_evalQuestionRecord, lookup_doc_id_evalQuestionRecord] at h0
    exact absurd (Json.str.inj (Option.some.inj h0)) (by decide)

/-- C9 witness: the within-run consistency holds on a concrete dataset and a
concrete process hash. -/
theorem claim_C9_eval_join_keys_witness :
    ("name" : String) ≠ "doc_id" ∧
    ((∀ q ∈ (add_eval_data "text" "name" (fun _ => 5) [⟨"T", [⟨"c", [⟨"q", []⟩]⟩]⟩]
        "eval_document" "feedback").2,
      ∃ dr ∈ (add_eval_data "text" "name" (fun _ => 5) [⟨"T", [⟨"c", [⟨"q", []⟩]⟩]⟩]
          "eval_document" "feedback").1,
        List.lookup "doc_id" dr = List.lookup "doc_id" q ∧
        ∃ ctx : String,
          List.lookup "doc_id" dr = some (Json.str (toString ((fun _ : String => (5 : ℤ)) ctx)))) ∧
    ∃ h1 h2 : String → ℤ, ∃ d : List SquadDoc,
      (add_eval_data "text" "name" h1 d "eval_document" "feedback").2 ≠
        (add_eval_data "text" "name" h2 d "eval_document" "feedback").2) :=
  ⟨by decide,
    claim_C9_eval_join_keys "text" "name" (fun _ => 5) [⟨"T", [⟨"c", [⟨"q", []⟩]⟩]⟩]
      "eval_document" "feedback" (by decide)⟩

/-- A key found in the left part of an appended association list. -/
theorem lookup_append_left {β : Type} (l1 l2 : List (String × β)) (k : String) (v : β)
    (h : List.lookup k l1 = some v) : List.lookup k (l1 ++ l2) = some v := by
  induction l1 with
  | nil => simp [List.lookup] at h
  | cons kv l1 ih =>
      cases hb : (k == kv.1) with
      | true => simp only [List.cons_append, List.lookup, hb] at h ⊢; exact h
      | false => simp only [List.cons_append, List.lookup, hb] at h ⊢; exact ih h

/-- A successful `mapExcept` decodes the lists elementwise. -/
theorem mapExcept_ok_forall2 {α β : Type} (f : α → Except StoreError β) :
    ∀ (l : List α) (l2 : List β), mapExcept f l = .ok l2 →
      List.Forall₂ (fun a b => f a = .ok b) l l2 := by
  intro l
  induction l with
  | nil => intro l2 h; simp only [mapExcept, Except.ok.injEq] at h; subst h; exact .nil
  | cons a l ih =>
      intro l2 h
      simp only [mapExcept] at h
      cases hf : f a with
      | error e => rw [hf] at h; exact absurd h (by simp)
      | ok b =>
          rw [hf] at h
          cases hm : mapExcept f l with
          | error e => rw [hm] at h; exact absurd h (by simp)
          | ok bs =>
              rw [hm] at h
              rw [Except.ok.injEq] at h
              subst h
              exact .cons hf (ih bs hm)

/-- Stepping `jsonGetPath` through one object key. -/
theorem jsonGetPath_cons_obj {kvs : List (String × Json)} {k : String} {j2 : Json}
    {ks : List String} (h : List.lookup k kvs = some j2) :
    jsonGetPath (Json.obj kvs) (k :: ks) = jsonGetPath j2 ks := by
  simp [jsonGetPath, jsonGet, h]

/-- The payload of `query_by_embedding` carries the shifted cosine script and
the query embedding at the expected paths. -/
theorem queryByEmbeddingBody_script_paths (store : ESStore) (emb : String)
    (query_emb : List ℚ) (top_k : ℕ) (cand : Option (List String)) :
    jsonGetPath (queryByEmbeddingBody store emb query_emb top_k cand)
      ["query", "script_score", "script", "source"] =
      some (Json.str ("cosineSimilarity(params.query_vector,doc[\x27" ++ emb ++ "\x27]) + 1.0")) ∧
    jsonGetPath (queryByEmbeddingBody store emb query_emb top_k cand)
      ["query", "script_score", "script", "params", "query_vector"] =
      some (Json.arr (query_emb.map Json.num)) := by
  simp only [queryByEmbeddingBody]
  constructor
  · rw [jsonGetPath_cons_obj (lookup_append_left _ _ _ _ (by with_unfolding_all rfl)),
      jsonGetPath_cons_obj (by with_unfolding_all rfl),
      jsonGetPath_cons_obj (by with_unfolding_all rfl),
      jsonGetPath_cons_obj (by with_unfolding_all rfl)]
    rfl
  · rw [jsonGetPath_cons_obj (lookup_append_left _ _ _ _ (by with_unfolding_all rfl)),
      jsonGetPath_cons_obj (by with_unfolding_all rfl),
      jsonGetPath_cons_obj (by with_unfolding_all rfl),
      jsonGetPath_cons_obj (by with_unfolding_all rfl),
      jsonGetPath_cons_obj (by with_unfolding_all rfl)]
    rfl

/-- C2: a successful `query_by_embedding` call sends a payload whose script
scores every candidate by cosine similarity against the stored embedding
field shifted by `+1.0` with the query embedding as the script parameter,
and decodes the hits with `score_adjustment = -1`, so a backend score
`cos + 1` that is non-zero is exposed to the caller as the unshifted cosine
similarity `cos`. -/
theorem claim_C2_cosine_shift_cancels (store : ESStore) (emb : String)
    (query_emb : List ℚ) (top_k : ℕ) (cand : Option (List String))
    (hits : List ESHit) (body : Json) (docs : List ESDocument)
    (hemb : store.embedding_field = some emb) (hne : emb ≠ "")
    (hok : query_by_embedding store query_emb top_k cand hits = .ok (body, docs)) :
    jsonGetPath body ["query", "script_score", "script", "source"] =
      some (Json.str ("cosineSimilarity(params.query_vector,doc[\x27" ++ emb ++ "\x27]) + 1.0")) ∧
    jsonGetPath body ["query", "script_score", "script", "params", "query_vector"] =
      some (Json.arr (query_emb.map Json.num)) ∧
    List.Forall₂ (fun (hit : ESHit) (d : ESDocument) =>
      ∀ cos : ℚ, hit.score = some (cos + 1) → cos + 1 ≠ 0 → d.query_score = some cos)
      hits docs := by
  simp only [query_by_embedding, hemb, hne, if_neg hne] at hok
  cases hm : mapExcept (convertHit store (-1)) hits with
  | error e => rw [hm] at hok; simp [Except.map] at hok
  | ok l =>
      rw [hm] at hok
      have hok2 : (Except.ok (queryByEmbeddingBody store emb query_emb top_k cand, l) :
          Except StoreError (Json × List ESDocument)) = .ok (body, docs) := hok
      rw [Except.ok.injEq, Prod.mk.injEq] at hok2
      obtain ⟨hbody, hdocs⟩ := hok2
      subst hbody
      subst hdocs
      refine ⟨(queryByEmbeddingBody_script_paths store emb query_emb top_k cand).1,
        (queryByEmbeddingBody_script_paths store emb query_emb top_k cand).2, ?_⟩
      refine (mapExcept_ok_forall2 _ hits l hm).imp ?_
      intro hit d hconv cos hs hs0
      have h2 := (convertHit_query_score store (-1) hit d hconv).2 (cos + 1) hs hs0
      rw [h2]
      ring_nf

/-- C2 witness: a concrete embedding query over one hit with backend score
`3/2` exposes the cosine similarity `1/2`. -/
theorem claim_C2_cosine_shift_cancels_witness :
    ESStore.embedding_field ⟨"document", ["text"], "text", "name", "external_source_id", some "emb", none⟩ = some "emb" ∧
    ("emb" : String) ≠ "" ∧
    query_by_embedding ⟨"document", ["text"], "text", "name", "external_source_id", some "emb", none⟩
        [1] 10 none [⟨"h1", some (3/2), [("text", Json.str "x")]⟩] =
      .ok (queryByEmbeddingBody ⟨"document", ["text"], "text", "name", "external_source_id", some "emb", none⟩
             "emb" [1] 10 none,
           [⟨"h1", Json.str "x", none, [("name", Json.null)], some (3/2 + -1)⟩]) ∧
    (jsonGetPath (queryByEmbeddingBody ⟨"document", ["text"], "text", "name", "external_source_id", some "emb", none⟩
        "emb" [1] 10 none) ["query", "script_score", "script", "source"] =
      some (Json.str ("cosineSimilarity(params.query_vector,doc[\x27" ++ "emb" ++ "\x27]) + 1.0")) ∧
    jsonGetPath (queryByEmbeddingBody ⟨"document", ["text"], "text", "name", "external_source_id", some "emb", none⟩
        "emb" [1] 10 none) ["query", "script_score", "script", "params", "query_vector"] =
      some (Json.arr (([1] : List ℚ).map Json.num)) ∧
    List.Forall₂ (fun (hit : ESHit) (d : ESDocument) =>
      ∀ cos : ℚ, hit.score = some (cos + 1) → cos + 1 ≠ 0 → d.query_score = some cos)
      [⟨"h1", some (3/2), [("text", Json.str "x")]⟩]
      [⟨"h1", Json.str "x", none, [("name", Json.null)], some (3/2 + -1)⟩]) :=
  ⟨rfl, by decide, by with_unfolding_all rfl,
    claim_C2_cosine_shift_cancels
      ⟨"document", ["text"], "text", "name", "external_source_id", some "emb", none⟩
      "emb" [1] 10 none
      [⟨"h1", some (3/2), [("text", Json.str "x")]⟩]
      (queryByEmbeddingBody ⟨"document", ["text"], "text", "name", "external_source_id", some "emb", none⟩
        "emb" [1] 10 none)
      [⟨"h1", Json.str "x", none, [("name", Json.null)], some (3/2 + -1)⟩]
      rfl (by decide) (by with_unfolding_all rfl)⟩

/-- C4 counterexample: called on two distinct documents with identical text,
`rerank` does not fail — the source has no raising path and no
`AmbiguousMatchError` exists anywhere in the repository.  It returns a
normal result in which the text-equality match-back appends every matching
document on every ranking pass: both documents appear twice, and (because
`doc["score"]` mutates the shared objects) every returned entry carries the
score of the last pass. -/
theorem claim_C4_counterexample :
    rerank "q" [⟨"1", "t", none⟩, ⟨"2", "t", none⟩] [0, 1/2] 5 =
      ⟨"q", 5, [⟨"1", "t", some (1/2)⟩, ⟨"2", "t", some (1/2)⟩,
                ⟨"1", "t", some (1/2)⟩, ⟨"2", "t", some (1/2)⟩]⟩ := by
  simp [rerank, rerankPass, setScore, List.insertionSort, List.orderedInsert,
    List.range_succ, List.filter, show ((0:ℚ) ≤ 1/2) from by norm_num]
  norm_num

/-- C4 amended: for two distinct documents with identical text and distances
`d0 ≤ d1`, `rerank` returns a result rather than failing: each of the two
documents is appended once per ranking pass (so each appears twice), and all
four returned entries carry the score `1 - d1` assigned by the last pass to
the shared objects. -/
theorem claim_C4_amended_duplicate_text (q i1 i2 t : String) (d0 d1 : ℚ) (h : d0 ≤ d1) :
    rerank q [⟨i1, t, none⟩, ⟨i2, t, none⟩] [d0, d1] 5 =
      ⟨q, 5, [⟨i1, t, some (1 - d1)⟩, ⟨i2, t, some (1 - d1)⟩,
              ⟨i1, t, some (1 - d1)⟩, ⟨i2, t, some (1 - d1)⟩]⟩ := by
  simp [rerank, rerankPass, setScore, List.insertionSort, List.orderedInsert, h,
    List.range_succ, List.filter]

/-- C4 witness: the duplicate-text behaviour at a concrete input. -/
theorem claim_C4_amended_duplicate_text_witness :
    ((0 : ℚ) ≤ 1/4) ∧
    rerank "query" [⟨"a", "x", none⟩, ⟨"b", "x", none⟩] [0, 1/4] 5 =
      ⟨"query", 5, [⟨"a", "x", some (1 - 1/4)⟩, ⟨"b", "x", some (1 - 1/4)⟩,
                    ⟨"a", "x", some (1 - 1/4)⟩, ⟨"b", "x", some (1 - 1/4)⟩]⟩ :=
  ⟨by norm_num, claim_C4_amended_duplicate_text "query" "a" "b" "x" 0 (1/4) (by norm_num)⟩

/-- A dollar-free prefix is emitted unchanged by the substitution scan. -/
theorem substRun_nodollar_append (binds : List (String × String)) :
    ∀ (pre rest : List Char), '$' ∉ pre →
      substRun binds (pre ++ rest) .normal =
        (substRun binds rest .normal).map (fun t => pre ++ t) := by
  intro pre
  induction pre with
  | nil =>
      intro rest h
      rw [List.nil_append]
      cases hres : substRun binds rest .normal <;> simp [Except.map, hres]
  | cons c pre ih =>
      intro rest h
      have hc : ¬ c = '$' := fun hcc => h (by rw [hcc]; exact List.mem_cons_self _ _)
      rw [List.cons_append, substRun, if_neg hc, ih rest (fun hp => h (List.mem_cons_of_mem c hp))]
      cases hres : substRun binds rest .normal <;> simp [Except.map, hres]

/-- Scanning identifier characters inside a braced placeholder accumulates
them, and the closing brace resolves the accumulated name. -/
theorem substRun_braceAcc_scan (binds : List (String × String)) :
    ∀ (ks acc post : List Char), acc ≠ [] → (∀ x ∈ ks, isIdChar x = true) →
      substRun binds (ks ++ '\x7d' :: post) (.braceAcc acc) =
        match resolveName binds (acc ++ ks) with
        | .ok v => (substRun binds post .normal).map (fun t => v ++ t)
        | .error e => .error e := by
  intro ks
  induction ks with
  | nil =>
      intro acc post hacc _
      rw [List.nil_append, substRun, if_neg hacc, if_neg (by decide : ¬ isIdChar '\x7d' = true),
        if_pos rfl, List.append_nil]
  | cons x ks ih =>
      intro acc post hacc hks
      have hx : isIdChar x = true := hks x (List.mem_cons_self _ _)
      rw [List.cons_append, substRun, if_neg hacc, if_pos hx,
        ih (acc ++ [x]) post (by simp) (fun y hy => hks y (List.mem_cons_of_mem x hy))]
      rw [List.append_assoc, List.singleton_append]

/-- A dollar-free template substitutes to itself. -/
theorem substRun_nodollar (binds : List (String × String)) (cs : List Char)
    (h : '$' ∉ cs) : substRun binds cs .normal = .ok cs := by
  have h2 := substRun_nodollar_append binds cs [] h
  rw [List.append_nil] at h2
  rw [h2]
  simp [substRun, Except.map]

/-- Substituting a template that is a bound braced placeholder between two
dollar-free stretches replaces the placeholder by its bound value. -/
theorem substRun_braced_placeholder (binds : List (String × String))
    (pre post : List Char) (k v : String)
    (hpre : '$' ∉ pre) (hpost : '$' ∉ post) (hk : isValidIdent k = true)
    (hlk : List.lookup k binds = some v) :
    substRun binds (pre ++ '$' :: '\x7b' :: k.toList ++ '\x7d' :: post) .normal =
      .ok (pre ++ v.toList ++ post) := by
  rw [List.append_assoc,
    substRun_nodollar_append binds pre (('$' :: '\x7b' :: k.toList) ++ ('\x7d' :: post)) hpre]
  cases hkl : k.toList with
  | nil =>
      have hkd : k.data = [] := hkl
      simp [isValidIdent, String.toList, hkd] at hk
  | cons c cs =>
      have hkd : k.data = c :: cs := hkl
      simp only [isValidIdent, String.toList, hkd, Bool.and_eq_true, List.all_eq_true] at hk
      obtain ⟨hc, hcs⟩ := hk
      simp only [List.cons_append]
      rw [substRun, if_pos rfl, substRun,
        if_neg (by decide : ¬ ('\x7b' : Char) = '$'), if_pos rfl,
        substRun, if_pos rfl, if_pos hc,
        substRun_braceAcc_scan binds cs [c] post (by simp) hcs]
      have hres : resolveName binds ([c] ++ cs) = .ok v.toList := by
        have hmk : String.mk ([c] ++ cs) = k := by
          rw [List.singleton_append, ← hkl]
          cases k with
          | mk data => rfl
        rw [resolveName, hmk, hlk]
      rw [hres, substRun_nodollar binds post hpost]
      simp [Except.map, List.append_assoc]

/-- A key absent from the folded filters is looked up in the initial
substitution dict. -/
theorem lookup_buildSubs_foldl_notmem {β : Type} (g : List String → β)
    (fs : List (String × List String)) :
    ∀ (m0 : List (String × β)) (k : String), k ∉ fs.map Prod.fst →
      List.lookup k (fs.foldl (fun m kv => dictSet m kv.1 (g kv.2)) m0) =
        List.lookup k m0 := by
  induction fs with
  | nil => intro m0 k _; rfl
  | cons kv fs ih =>
      intro m0 k hk
      rw [List.map_cons] at hk
      have h1 : k ∉ fs.map Prod.fst := fun h => hk (List.mem_cons_of_mem _ h)
      have h2 : k ≠ kv.1 := fun h => hk (by rw [h]; exact List.mem_cons_self _ _)
      rw [List.foldl_cons, ih (dictSet m0 kv.1 (g kv.2)) k h1, lookup_dictSet_ne _ _ _ _ h2]

/-- A filter key with no duplicate among the filter keys is bound to the
serialization of its value list. -/
theorem lookup_buildSubs_foldl_mem {β : Type} (g : List String → β)
    (fs : List (String × List String)) :
    ∀ (m0 : List (String × β)) (k : String) (vs : List String),
      (fs.map Prod.fst).Nodup → (k, vs) ∈ fs →
      List.lookup k (fs.foldl (fun m kv => dictSet m kv.1 (g kv.2)) m0) = some (g vs) := by
  induction fs with
  | nil => intro m0 k vs _ hmem; simp at hmem
  | cons kv fs ih =>
      intro m0 k vs hnd hmem
      rw [List.map_cons, List.nodup_cons] at hnd
      obtain ⟨hk1, hnd2⟩ := hnd
      rw [List.foldl_cons]
      rcases List.mem_cons.mp hmem with heq | htail
      · have hkk : k = kv.1 := by rw [← heq]
        have hvs : g vs = g kv.2 := by rw [← heq]
        rw [hvs, lookup_buildSubs_foldl_notmem g fs _ k (by rw [hkk]; exact hk1), hkk,
          lookup_dictSet_self]
      · exact ih _ k vs hnd2 htail

/-- One bound braced placeholder at the head of the input substitutes to its
bound value, whatever follows. -/
theorem substRun_braced_step (binds : List (String × String)) (k v : String)
    (post : List Char) (hk : isValidIdent k = true)
    (hlk : List.lookup k binds = some v) :
    substRun binds (('$' :: '\x7b' :: k.toList) ++ ('\x7d' :: post)) .normal =
      (substRun binds post .normal).map (fun t => v.toList ++ t) := by
  cases hkl : k.toList with
  | nil =>
      have hkd : k.data = [] := hkl
      simp [isValidIdent, String.toList, hkd] at hk
  | cons c cs =>
      have hkd : k.data = c :: cs := hkl
      simp only [isValidIdent, String.toList, hkd, Bool.and_eq_true, List.all_eq_true] at hk
      obtain ⟨hc, hcs⟩ := hk
      simp only [List.cons_append]
      rw [substRun, if_pos rfl, substRun,
        if_neg (by decide : ¬ ('\x7b' : Char) = '$'), if_pos rfl,
        substRun, if_pos rfl, if_pos hc,
        substRun_braceAcc_scan binds cs [c] post (by simp) hcs]
      have hres : resolveName binds ([c] ++ cs) = .ok v.toList := by
        have hmk : String.mk ([c] ++ cs) = k := by
          rw [List.singleton_append, ← hkl]
          cases k with
          | mk data => rfl
        rw [resolveName, hmk, hlk]
      rw [hres]

/-- Substituting a template made of arbitrarily many dollar-free literal
stretches and bound braced placeholders replaces every placeholder by its
bound value. -/
theorem substRun_pieces (binds : List (String × String)) :
    ∀ (pieces : List (List Char × String)) (tail : List Char),
      (∀ pc ∈ pieces, '$' ∉ pc.1) → '$' ∉ tail →
      (∀ pc ∈ pieces, isValidIdent pc.2 = true) →
      (∀ pc ∈ pieces, ∃ v, List.lookup pc.2 binds = some v) →
      substRun binds (templateOfPieces pieces tail) .normal =
        .ok (substitutedOfPieces binds pieces tail) := by
  intro pieces
  induction pieces with
  | nil =>
      intro tail _ htail _ _
      exact substRun_nodollar binds tail htail
  | cons pc rest ih =>
      intro tail hlits htail hks hbound
      obtain ⟨v, hv⟩ := hbound pc (List.mem_cons_self _ _)
      rw [templateOfPieces,
        substRun_nodollar_append binds pc.1 _ (hlits pc (List.mem_cons_self _ _)),
        substRun_braced_step binds pc.2 v _ (hks pc (List.mem_cons_self _ _)) hv,
        ih tail (fun q hq => hlits q (List.mem_cons_of_mem _ hq)) htail
          (fun q hq => hks q (List.mem_cons_of_mem _ hq))
          (fun q hq => hbound q (List.mem_cons_of_mem _ hq)),
        substitutedOfPieces, hv]
      simp [Except.map]

/-- C5: for every custom-query template of the placeholder grammar
(arbitrarily many literal stretches interleaved with braced placeholders)
in which every placeholder is bound, the custom-query branch of `query`
replaces every placeholder by its bound value and parses the substituted
text as the backend payload; `question` is bound to the literal query
string (unless a filter overrides it) and every filter key is bound to its
value list serialized as a JSON array literal.  Concretely: the spec's two
examples (the `question` template with query `cats`, and a `tag` filter
`["a", "b"]` embedded as a JSON array literal), and a two-placeholder
template exercising both bindings at once. -/
theorem claim_C5_custom_query_substitution :
    (∀ (q : String) (filters : List (String × List String))
       (pieces : List (List Char × String)) (tail : List Char),
       (∀ pc ∈ pieces, '$' ∉ pc.1) → '$' ∉ tail →
       (∀ pc ∈ pieces, isValidIdent pc.2 = true) →
       (∀ pc ∈ pieces, ∃ v, List.lookup pc.2 (buildSubstitutions q filters) = some v) →
       templateSubstitute (buildSubstitutions q filters)
           (String.mk (templateOfPieces pieces tail)) =
         .ok (String.mk (substitutedOfPieces (buildSubstitutions q filters) pieces tail)) ∧
       ∀ j : Json,
         jsonParse (String.mk (substitutedOfPieces (buildSubstitutions q filters)
           pieces tail)) = some j →
         customQueryBody (String.mk (templateOfPieces pieces tail)) q filters = .ok j) ∧
    (∀ (q : String) (filters : List (String × List String)),
       "question" ∉ filters.map Prod.fst →
       List.lookup "question" (buildSubstitutions q filters) = some q) ∧
    (∀ (q : String) (filters : List (String × List String)) (k : String) (vs : List String),
       (filters.map Prod.fst).Nodup → (k, vs) ∈ filters →
       List.lookup k (buildSubstitutions q filters) = some (dumpsStringList vs)) ∧
    customQueryBody "\x7b\"query\":\x7b\"match\":\x7b\"text\":\"$\x7bquestion\x7d\"\x7d\x7d\x7d"
        "cats" [] =
      .ok (Json.obj [("query", Json.obj [("match", Json.obj [("text", Json.str "cats")])])]) ∧
    templateSubstitute (buildSubstitutions "irrelevant" [("tag", ["a", "b"])])
        "\x7b\"query\":\x7b\"terms\":\x7b\"tag\":$\x7btag\x7d\x7d\x7d\x7d" =
      .ok "\x7b\"query\":\x7b\"terms\":\x7b\"tag\":[\"a\", \"b\"]\x7d\x7d\x7d" ∧
    customQueryBody "\x7b\"query\":\x7b\"terms\":\x7b\"tag\":$\x7btag\x7d\x7d\x7d\x7d"
        "irrelevant" [("tag", ["a", "b"])] =
      .ok (Json.obj [("query", Json.obj [("terms",
        Json.obj [("tag", Json.arr [Json.str "a", Json.str "b"])])])]) ∧
    customQueryBody
        "\x7b\"query\":\x7b\"bool\":\x7b\"must\":[\x7b\"match\":\x7b\"text\":\"$\x7bquestion\x7d\"\x7d\x7d,\x7b\"terms\":\x7b\"tag\":$\x7btag\x7d\x7d\x7d]\x7d\x7d\x7d"
        "cats" [("tag", ["a", "b"])] =
      .ok (Json.obj [("query", Json.obj [("bool", Json.obj [("must", Json.arr
        [Json.obj [("match", Json.obj [("text", Json.str "cats")])],
         Json.obj [("terms", Json.obj [("tag",
           Json.arr [Json.str "a", Json.str "b"])])]])])])]) := by
  refine ⟨?_, ?_, ?_, ?_, ?_, ?_, ?_⟩
  · intro q filters pieces tail hlits htail hks hbound
    have hts : templateSubstitute (buildSubstitutions q filters)
        (String.mk (templateOfPieces pieces tail)) =
        .ok (String.mk (substitutedOfPieces (buildSubstitutions q filters) pieces tail)) := by
      rw [templateSubstitute]
      have htl : (String.mk (templateOfPieces pieces tail)).toList =
          templateOfPieces pieces tail := rfl
      rw [htl, substRun_pieces _ pieces tail hlits htail hks hbound]
      rfl
    refine ⟨hts, ?_⟩
    intro j hj
    simp [customQueryBody, hts, hj]
  · intro q filters h
    rw [buildSubstitutions, lookup_buildSubs_foldl_notmem _ filters _ _ h]
    rfl
  · intro q filters k vs hnd hmem
    exact lookup_buildSubs_foldl_mem _ filters _ k vs hnd hmem
  · with_unfolding_all rfl
  · with_unfolding_all rfl
  · with_unfolding_all rfl
  · with_unfolding_all rfl

/-- C5 witness: the general conjunct applied to a concrete two-placeholder
template combining `question` and the `tag` filter, with every hypothesis
discharged and the resulting payload computed. -/
theorem claim_C5_custom_query_substitution_witness :
    ((∀ pc ∈ ([(("\x7b\"query\":\x7b\"bool\":\x7b\"must\":[\x7b\"match\":\x7b\"text\":\"" : String).toList, "question"),
        (("\"\x7d\x7d,\x7b\"terms\":\x7b\"tag\":" : String).toList, "tag")] :
        List (List Char × String)), '$' ∉ pc.1) ∧
      '$' ∉ ("\x7d\x7d]\x7d\x7d\x7d" : String).toList ∧
      (∀ pc ∈ ([(("\x7b\"query\":\x7b\"bool\":\x7b\"must\":[\x7b\"match\":\x7b\"text\":\"" : String).toList, "question"),
        (("\"\x7d\x7d,\x7b\"terms\":\x7b\"tag\":" : String).toList, "tag")] :
        List (List Char × String)), isValidIdent pc.2 = true) ∧
      (∀ pc ∈ ([(("\x7b\"query\":\x7b\"bool\":\x7b\"must\":[\x7b\"match\":\x7b\"text\":\"" : String).toList, "question"),
        (("\"\x7d\x7d,\x7b\"terms\":\x7b\"tag\":" : String).toList, "tag")] :
        List (List Char × String)),
        ∃ v, List.lookup pc.2 (buildSubstitutions "cats" [("tag", ["a", "b"])]) = some v)) ∧
    templateSubstitute (buildSubstitutions "cats" [("tag", ["a", "b"])])
        (String.mk (templateOfPieces
          [(("\x7b\"query\":\x7b\"bool\":\x7b\"must\":[\x7b\"match\":\x7b\"text\":\"" : String).toList, "question"),
           (("\"\x7d\x7d,\x7b\"terms\":\x7b\"tag\":" : String).toList, "tag")]
          ("\x7d\x7d]\x7d\x7d\x7d" : String).toList)) =
      .ok (String.mk (substitutedOfPieces (buildSubstitutions "cats" [("tag", ["a", "b"])])
          [(("\x7b\"query\":\x7b\"bool\":\x7b\"must\":[\x7b\"match\":\x7b\"text\":\"" : String).toList, "question"),
           (("\"\x7d\x7d,\x7b\"terms\":\x7b\"tag\":" : String).toList, "tag")]
          ("\x7d\x7d]\x7d\x7d\x7d" : String).toList)) ∧
    customQueryBody (String.mk (templateOfPieces
          [(("\x7b\"query\":\x7b\"bool\":\x7b\"must\":[\x7b\"match\":\x7b\"text\":\"" : String).toList, "question"),
           (("\"\x7d\x7d,\x7b\"terms\":\x7b\"tag\":" : String).toList, "tag")]
          ("\x7d\x7d]\x7d\x7d\x7d" : String).toList)) "cats" [("tag", ["a", "b"])] =
      .ok (Json.obj [("query", Json.obj [("bool", Json.obj [("must", Json.arr
        [Json.obj [("match", Json.obj [("text", Json.str "cats")])],
         Json.obj [("terms", Json.obj [("tag",
           Json.arr [Json.str "a", Json.str "b"])])]])])])]) := by
  have h := (claim_C5_custom_query_substitution).1 "cats" [("tag", ["a", "b"])]
    [(("\x7b\"query\":\x7b\"bool\":\x7b\"must\":[\x7b\"match\":\x7b\"text\":\"" : String).toList, "question"),
     (("\"\x7d\x7d,\x7b\"terms\":\x7b\"tag\":" : String).toList, "tag")]
    ("\x7d\x7d]\x7d\x7d\x7d" : String).toList
    (by decide) (by decide) (by decide)
    (by
      intro pc hpc
      rcases List.mem_cons.mp hpc with rfl | hpc2
      · exact ⟨"cats", by with_unfolding_all rfl⟩
      · rcases List.mem_cons.mp hpc2 with rfl | hpc3
        · exact ⟨"[\"a\", \"b\"]", by with_unfolding_all rfl⟩
        · exact absurd hpc3 (List.not_mem_nil pc))
  exact ⟨⟨by decide, by decide, by decide, (by
      intro pc hpc
      rcases List.mem_cons.mp hpc with rfl | hpc2
      · exact ⟨"cats", by with_unfolding_all rfl⟩
      · rcases List.mem_cons.mp hpc2 with rfl | hpc3
        · exact ⟨"[\"a\", \"b\"]", by with_unfolding_all rfl⟩
        · exact absurd hpc3 (List.not_mem_nil pc))⟩,
    h.1, h.2 _ (by with_unfolding_all rfl)⟩

/-- If some placeholder collected by the scan is unbound, the substitution
scan fails (with an unbound-name error at or before that placeholder, or a
syntax error). -/
theorem namesRun_unbound_substRun_error (binds : List (String × String)) :
    ∀ (cs : List Char) (mode : SMode),
      (∃ p ∈ namesRun cs mode, List.lookup p binds = none) →
      ∃ e, substRun binds cs mode = .error e := by
  intro cs
  induction cs with
  | nil =>
      intro mode h
      obtain ⟨p, hp, hlk⟩ := h
      cases mode with
      | normal => simp [namesRun] at hp
      | dollar => exact ⟨.invalid, rfl⟩
      | braceAcc acc => exact ⟨.invalid, rfl⟩
      | identAcc acc =>
          simp only [namesRun, List.mem_singleton] at hp
          subst hp
          exact ⟨.unbound (String.mk acc), by simp [substRun, resolveName, hlk]⟩
  | cons c cs ih =>
      intro mode h
      cases mode with
      | normal =>
          by_cases hc : c = '$'
          · rw [namesRun, if_pos hc] at h
            obtain ⟨e, he⟩ := ih .dollar h
            exact ⟨e, by rw [substRun, if_pos hc, he]⟩
          · rw [namesRun, if_neg hc] at h
            obtain ⟨e, he⟩ := ih .normal h
            exact ⟨e, by rw [substRun, if_neg hc, he]; rfl⟩
      | dollar =>
          by_cases hc : c = '$'
          · rw [namesRun, if_pos hc] at h
            obtain ⟨e, he⟩ := ih .normal h
            exact ⟨e, by rw [substRun, if_pos hc, he]; rfl⟩
          · by_cases hb : c = '\x7b'
            · rw [namesRun, if_neg hc, if_pos hb] at h
              obtain ⟨e, he⟩ := ih (.braceAcc []) h
              exact ⟨e, by rw [substRun, if_neg hc, if_pos hb, he]⟩
            · by_cases hs : isIdStart c = true
              · rw [namesRun, if_neg hc, if_neg hb, if_pos hs] at h
                obtain ⟨e, he⟩ := ih (.identAcc [c]) h
                exact ⟨e, by rw [substRun, if_neg hc, if_neg hb, if_pos hs, he]⟩
              · rw [namesRun, if_neg hc, if_neg hb, if_neg hs] at h
                simp at h
      | braceAcc acc =>
          by_cases hacc : acc = []
          · subst hacc
            by_cases hs : isIdStart c = true
            · rw [namesRun, if_pos rfl, if_pos hs] at h
              obtain ⟨e, he⟩ := ih (.braceAcc [c]) h
              exact ⟨e, by rw [substRun, if_pos rfl, if_pos hs, he]⟩
            · rw [namesRun, if_pos rfl, if_neg hs] at h
              simp at h
          · by_cases hic : isIdChar c = true
            · rw [namesRun, if_neg hacc, if_pos hic] at h
              obtain ⟨e, he⟩ := ih (.braceAcc (acc ++ [c])) h
              exact ⟨e, by rw [substRun, if_neg hacc, if_pos hic, he]⟩
            · by_cases hb : c = '\x7d'
              · rw [namesRun, if_neg hacc, if_neg hic, if_pos hb] at h
                obtain ⟨p, hp, hlk⟩ := h
                rcases List.mem_cons.mp hp with rfl | htail
                · exact ⟨.unbound (String.mk acc),
                    by rw [substRun, if_neg hacc, if_neg hic, if_pos hb]
                       simp [resolveName, hlk]⟩
                · cases hres : List.lookup (String.mk acc) binds with
                  | none =>
                      exact ⟨.unbound (String.mk acc),
                        by rw [substRun, if_neg hacc, if_neg hic, if_pos hb]
                           simp [resolveName, hres]⟩
                  | some v =>
                      obtain ⟨e, he⟩ := ih .normal ⟨p, htail, hlk⟩
                      exact ⟨e, by rw [substRun, if_neg hacc, if_neg hic, if_pos hb]
                                   simp [resolveName, hres, he, Except.map]⟩
              · rw [namesRun, if_neg hacc, if_neg hic, if_neg hb] at h
                simp at h
      | identAcc acc =>
          by_cases hic : isIdChar c = true
          · rw [namesRun, if_pos hic] at h
            obtain ⟨e, he⟩ := ih (.identAcc (acc ++ [c])) h
            exact ⟨e, by rw [substRun, if_pos hic, he]⟩
          · rw [namesRun, if_neg hic] at h
            obtain ⟨p, hp, hlk⟩ := h
            rcases List.mem_cons.mp hp with rfl | htail
            · exact ⟨.unbound (String.mk acc),
                by rw [substRun, if_neg hic]
                   simp [resolveName, hlk]⟩
            · cases hres : List.lookup (String.mk acc) binds with
              | none =>
                  exact ⟨.unbound (String.mk acc),
                    by rw [substRun, if_neg hic]
                       simp [resolveName, hres]⟩
              | some v =>
                  by_cases hd : c = '$'
                  · rw [if_pos hd] at htail
                    obtain ⟨e, he⟩ := ih .dollar ⟨p, htail, hlk⟩
                    exact ⟨e, by rw [substRun, if_neg hic]
                                 simp [resolveName, hres, hd, he, Except.map]⟩
                  · rw [if_neg hd] at htail
                    obtain ⟨e, he⟩ := ih .normal ⟨p, htail, hlk⟩
                    exact ⟨e, by rw [substRun, if_neg hic]
                                 simp [resolveName, hres, hd, he, Except.map]⟩

/-- C6: if some placeholder of the custom-query template has no binding
(neither `question` nor a filter key), or the substituted text does not
parse as JSON, the custom-query branch of `query` fails with one of the
error kinds the spec groups as `TemplateSubstitutionError`. -/
theorem claim_C6_template_failures (t q : String) (filters : List (String × List String))
    (h : (∃ p ∈ placeholderNames t, List.lookup p (buildSubstitutions q filters) = none) ∨
         (∃ s, templateSubstitute (buildSubstitutions q filters) t = .ok s ∧
           jsonParse s = none)) :
    ∃ e, customQueryBody t q filters = .error e ∧
      e.isTemplateSubstitutionError = true := by
  rcases h with hunb | ⟨s, hsub, hparse⟩
  · obtain ⟨e, he⟩ :=
      namesRun_unbound_substRun_error (buildSubstitutions q filters) t.toList .normal hunb
    have hts : templateSubstitute (buildSubstitutions q filters) t = .error e := by
      rw [templateSubstitute, he]; rfl
    cases e with
    | unbound p => exact ⟨.templateKey p, by simp [customQueryBody, hts], rfl⟩
    | invalid => exact ⟨.templateInvalid, by simp [customQueryBody, hts], rfl⟩
  · exact ⟨.jsonDecode, by simp [customQueryBody, hsub, hparse], rfl⟩

/-- C6 witness: a template referencing the unbound placeholder `missing`
fails on a concrete call. -/
theorem claim_C6_template_failures_witness :
    ((∃ p ∈ placeholderNames "$\x7bmissing\x7d",
        List.lookup p (buildSubstitutions "x" []) = none) ∨
     (∃ s, templateSubstitute (buildSubstitutions "x" []) "$\x7bmissing\x7d" = .ok s ∧
        jsonParse s = none)) ∧
    ∃ e, customQueryBody "$\x7bmissing\x7d" "x" [] = .error e ∧
      e.isTemplateSubstitutionError = true :=
  ⟨Or.inl (by decide), claim_C6_template_failures "$\x7bmissing\x7d" "x" [] (Or.inl (by decide))⟩

/-- Inserting a pair whose index is below every index of a list that is
sorted by distance with index tie-breaks keeps the list sorted that way
(the stability of the insertion). -/
theorem orderedInsert_pairwise_lex (a : ℕ × ℚ) (l : List (ℕ × ℚ))
    (hl : l.Pairwise (fun p q : ℕ × ℚ => p.2 < q.2 ∨ (p.2 = q.2 ∧ p.1 < q.1)))
    (ha : ∀ c ∈ l, a.1 < c.1) :
    (List.orderedInsert (fun p q : ℕ × ℚ => p.2 ≤ q.2) a l).Pairwise
      (fun p q : ℕ × ℚ => p.2 < q.2 ∨ (p.2 = q.2 ∧ p.1 < q.1)) := by
  induction l with
  | nil => simp
  | cons b l ih =>
      rw [List.pairwise_cons] at hl
      rw [List.orderedInsert]
      by_cases hab : a.2 ≤ b.2
      · rw [if_pos hab]
        rw [List.pairwise_cons]
        refine ⟨?_, List.pairwise_cons.mpr hl⟩
        intro c hc
        rcases List.mem_cons.mp hc with rfl | hcl
        · rcases lt_or_eq_of_le hab with hlt | heq
          · exact Or.inl hlt
          · exact Or.inr ⟨heq, ha c (List.mem_cons_self _ _)⟩
        · have hbc : b.2 ≤ c.2 := by
            rcases hl.1 c hcl with h1 | h1
            · exact le_of_lt h1
            · exact le_of_eq h1.1
          rcases lt_or_eq_of_le (le_trans hab hbc) with hlt | heq
          · exact Or.inl hlt
          · exact Or.inr ⟨heq, ha c (List.mem_cons_of_mem _ hcl)⟩
      · rw [if_neg hab]
        rw [List.pairwise_cons]
        constructor
        · intro c hc
          rcases (List.mem_orderedInsert _).mp hc with rfl | hcl
          · exact Or.inl (lt_of_not_le hab)
          · exact hl.1 c hcl
        · exact ih hl.2 (fun c hc => ha c (List.mem_cons_of_mem _ hc))

/-- Insertion sort by distance of a list with strictly increasing indices is
sorted by distance with ties broken by index order. -/
theorem insertionSort_pairwise_lex (l : List (ℕ × ℚ))
    (hl : l.Pairwise (fun p q : ℕ × ℚ => p.1 < q.1)) :
    (List.insertionSort (fun p q : ℕ × ℚ => p.2 ≤ q.2) l).Pairwise
      (fun p q : ℕ × ℚ => p.2 < q.2 ∨ (p.2 = q.2 ∧ p.1 < q.1)) := by
  induction l with
  | nil => simp
  | cons a l ih =>
      rw [List.pairwise_cons] at hl
      rw [List.insertionSort]
      apply orderedInsert_pairwise_lex a _ (ih hl.2)
      intro c hc
      exact hl.1 c ((List.mem_insertionSort _).mp hc)

/-- A member of `zip (range n) d` is a pair `(i, d[i])`. -/
theorem mem_zip_range (d : List ℚ) (p : ℕ × ℚ)
    (hp : p ∈ (List.range d.length).zip d) : p.1 < d.length ∧ p.2 = d.getD p.1 0 := by
  rw [List.mem_iff_getElem] at hp
  obtain ⟨i, hi, hget⟩ := hp
  have hil : i < d.length := by
    rw [List.length_zip, List.length_range] at hi
    omega
  have hir : i < (List.range d.length).length := by rw [List.length_range]; exact hil
  rw [List.getElem_zip, List.getElem_range] at hget
  rw [← hget]
  exact ⟨hil, (List.getD_eq_getElem d 0 hil).symm⟩

/-- The pairs of `zip (range n) d` have strictly increasing indices. -/
theorem zip_range_pairwise_fst (d : List ℚ) :
    ((List.range d.length).zip d).Pairwise (fun p q : ℕ × ℚ => p.1 < q.1) := by
  have h := List.pairwise_lt_range d.length
  have hmap : ((List.range d.length).zip d).map Prod.fst = List.range d.length :=
    List.map_fst_zip _ _ (by rw [List.length_range])
  rw [← hmap] at h
  exact List.pairwise_map.mp h

/-- `getD` through `map`, in range. -/
theorem getD_map_of_lt {α β : Type} [Inhabited α] [Inhabited β] (l : List α)
    (f : α → β) (j : ℕ) (hj : j < l.length) :
    (l.map f).getD j default = f (l.getD j default) := by
  rw [List.getD_eq_getElem _ _ (by rw [List.length_map]; exact hj),
    List.getD_eq_getElem _ _ hj, List.getElem_map]

/-- Filtering `range n` by a predicate that holds exactly at `i < n` yields
the singleton `[i]`. -/
theorem filter_range_eq_singleton (n : ℕ) :
    ∀ (i : ℕ) (p : ℕ → Bool), i < n → (∀ j, j < n → (p j = true ↔ j = i)) →
      (List.range n).filter p = [i] := by
  induction n with
  | zero => intro i p hi _; omega
  | succ n ih =>
      intro i p hi hp
      rw [List.range_succ, List.filter_append]
      by_cases hin : i = n
      · subst hin
        have h1 : (List.range i).filter p = [] := by
          rw [List.filter_eq_nil_iff]
          intro a ha
          rw [List.mem_range] at ha
          intro hpa
          exact absurd ((hp a (by omega)).mp hpa) (by omega)
        have h2 : p i = true := (hp i (by omega)).mpr rfl
        rw [h1]
        simp [List.filter, h2]
      · have hi2 : i < n := by omega
        have h2 : p n = false := by
          cases hpn : p n with
          | false => rfl
          | true => exact absurd ((hp n (by omega)).mp hpn) (fun h => hin h.symm)
        rw [ih i p hi2 (fun j hj => hp j (by omega))]
        simp [List.filter, h2]

/-- Under pairwise-distinct texts, text equality of entries determines index
equality. -/
theorem text_eq_iff_of_pairwise (docs : List RDoc)
    (hd : docs.Pairwise (fun a b => a.text ≠ b.text)) (i j : ℕ)
    (hi : i < docs.length) (hj : j < docs.length) :
    ((docs.getD j default).text = (docs.getD i default).text ↔ j = i) := by
  constructor
  · intro heq
    by_contra hne
    rw [List.pairwise_iff_getElem] at hd
    rw [List.getD_eq_getElem _ _ hi, List.getD_eq_getElem _ _ hj] at heq
    rcases Nat.lt_or_ge j i with hlt | hge
    · exact hd j i hj hi hlt heq
    · have hlt2 : i < j := by omega
      exact hd i j hi hj hlt2 heq.symm
  · rintro rfl
    rfl

/-- The two components of one ranking pass, written out. -/
theorem rerankPass_eq (corpus : List String) (st : RerankSt) (p : ℕ × ℚ) :
    (rerankPass corpus st p).docs = st.docs.map (fun d =>
        if d.text = corpus.getD p.1 "" then setScore d (1 - p.2) else d) ∧
    (rerankPass corpus st p).ranked = st.ranked ++
      (List.range st.docs.length).filter
        (fun j => (st.docs.getD j default).text = corpus.getD p.1 "") :=
  ⟨rfl, rfl⟩

/-- The ranking loop of `rerank` under pairwise-distinct texts: each pass
appends exactly the index of its pair and sets the score of the document at
that index to `1 - distance`; nothing else changes. -/
theorem rerank_fold_spec (docs0 : List RDoc)
    (hd : docs0.Pairwise (fun a b => a.text ≠ b.text)) :
    ∀ (ps : List (ℕ × ℚ)) (st : RerankSt),
      st.docs.map (fun d => d.text) = docs0.map (fun d => d.text) →
      (∀ p ∈ ps, p.1 < docs0.length) →
      (ps.map Prod.fst).Nodup →
      (ps.foldl (rerankPass (docs0.map (fun d => d.text))) st).ranked =
          st.ranked ++ ps.map Prod.fst ∧
      (ps.foldl (rerankPass (docs0.map (fun d => d.text))) st).docs.map (fun d => d.text) =
          docs0.map (fun d => d.text) ∧
      (∀ j : ℕ, j ∉ ps.map Prod.fst →
        (ps.foldl (rerankPass (docs0.map (fun d => d.text))) st).docs.getD j default =
          st.docs.getD j default) ∧
      (∀ p ∈ ps,
        (ps.foldl (rerankPass (docs0.map (fun d => d.text))) st).docs.getD p.1 default =
          setScore (st.docs.getD p.1 default) (1 - p.2)) := by
  intro ps
  induction ps with
  | nil =>
      intro st htext _ _
      exact ⟨by simp, htext, fun j _ => rfl, fun p hp => absurd hp (List.not_mem_nil p)⟩
  | cons p ps ih =>
      intro st htext hbound hnd
      rw [List.map_cons, List.nodup_cons] at hnd
      obtain ⟨hp1notin, hndtail⟩ := hnd
      have hlen : st.docs.length = docs0.length := by
        have h2 := congrArg List.length htext
        simpa using h2
      have hp1 : p.1 < docs0.length := hbound p (List.mem_cons_self _ _)
      have hpassage : (docs0.map (fun d => d.text)).getD p.1 "" =
          (st.docs.getD p.1 default).text := by
        rw [← htext,
          List.getD_eq_getElem _ _ (by rw [List.length_map, hlen]; exact hp1),
          List.getElem_map, List.getD_eq_getElem _ _ (by rw [hlen]; exact hp1)]
      have hstp : st.docs.Pairwise (fun a b => a.text ≠ b.text) :=
        List.pairwise_map.mp (by rw [htext]; exact List.pairwise_map.mpr hd)
      have hfilter : (List.range st.docs.length).filter
          (fun j => (st.docs.getD j default).text =
            (docs0.map (fun d => d.text)).getD p.1 "") = [p.1] := by
        apply filter_range_eq_singleton st.docs.length p.1 _ (by rw [hlen]; exact hp1)
        intro j hj
        simp only [decide_eq_true_eq]
        rw [hpassage]
        exact text_eq_iff_of_pairwise st.docs hstp p.1 j (by omega) (by omega)
      have hst1docs : ∀ j : ℕ, j < docs0.length →
          (rerankPass (docs0.map (fun d => d.text)) st p).docs.getD j default =
            (if j = p.1 then setScore (st.docs.getD j default) (1 - p.2)
             else st.docs.getD j default) := by
        intro j hj
        rw [(rerankPass_eq _ st p).1, getD_map_of_lt _ _ j (by rw [hlen]; exact hj)]
        by_cases hjp : j = p.1
        · rw [if_pos hjp]
          have heq : (st.docs.getD j default).text =
              (docs0.map (fun d => d.text)).getD p.1 "" := by
            rw [hpassage, hjp]
          rw [if_pos heq, hjp]
        · rw [if_neg hjp]
          have hne : ¬ (st.docs.getD j default).text =
              (docs0.map (fun d => d.text)).getD p.1 "" := by
            rw [hpassage]
            intro hcon
            exact hjp ((text_eq_iff_of_pairwise st.docs hstp p.1 j
              (by omega) (by omega)).mp hcon)
          rw [if_neg hne]
      have hst1len : (rerankPass (docs0.map (fun d => d.text)) st p).docs.length =
          docs0.length := by
        rw [(rerankPass_eq _ st p).1, List.length_map, hlen]
      have hst1ge : ∀ j : ℕ, docs0.length ≤ j →
          (rerankPass (docs0.map (fun d => d.text)) st p).docs.getD j default =
            st.docs.getD j default := by
        intro j hj
        rw [List.getD_eq_default _ _ (by rw [hst1len]; exact hj),
          List.getD_eq_default _ _ (by rw [hlen]; exact hj)]
      have htext1 : (rerankPass (docs0.map (fun d => d.text)) st p).docs.map
          (fun d => d.text) = docs0.map (fun d => d.text) := by
        rw [(rerankPass_eq _ st p).1, List.map_map]
        have hcomp : ((fun d : RDoc => d.text) ∘ (fun d : RDoc =>
            if d.text = (docs0.map (fun d => d.text)).getD p.1 "" then
              setScore d (1 - p.2) else d)) = (fun d : RDoc => d.text) := by
          funext d
          by_cases h : d.text = (docs0.map (fun d => d.text)).getD p.1 ""
          · show (if d.text = (docs0.map (fun d => d.text)).getD p.1 "" then
                setScore d (1 - p.2) else d).text = d.text
            rw [if_pos h]
            rfl
          · show (if d.text = (docs0.map (fun d => d.text)).getD p.1 "" then
                setScore d (1 - p.2) else d).text = d.text
            rw [if_neg h]
        rw [hcomp, htext]
      have hranked1 : (rerankPass (docs0.map (fun d => d.text)) st p).ranked =
          st.ranked ++ [p.1] := by
        rw [(rerankPass_eq _ st p).2, hfilter]
      obtain ⟨ihr, ihtext, ihuntouched, ihset⟩ :=
        ih (rerankPass (docs0.map (fun d => d.text)) st p) htext1
          (fun q hq => hbound q (List.mem_cons_of_mem p hq)) hndtail
      rw [List.foldl_cons]
      refine ⟨?_, ihtext, ?_, ?_⟩
      · rw [ihr, hranked1, List.append_assoc, List.singleton_append, List.map_cons]
      · intro j hj
        rw [List.map_cons, List.mem_cons] at hj
        push_neg at hj
        rw [ihuntouched j hj.2]
        rcases Nat.lt_or_ge j docs0.length with hlt | hge
        · rw [hst1docs j hlt, if_neg hj.1]
        · exact hst1ge j hge
      · intro q hq
        rcases List.mem_cons.mp hq with rfl | hqtail
        · rw [ihuntouched q.1 hp1notin, hst1docs q.1 hp1, if_pos rfl]
        · have hq1 : q.1 < docs0.length := hbound q (List.mem_cons_of_mem p hqtail)
          have hqne : ¬ q.1 = p.1 := by
            intro hcon
            exact hp1notin (hcon ▸ List.mem_map_of_mem Prod.fst hqtail)
          rw [ihset q hqtail, hst1docs q.1 hq1, if_neg hqne]

/-- C3: for a query and documents with pairwise-distinct texts (and one
distance per document), `rerank` orders the documents by ascending cosine
distance with ties broken by original input order — the returned sequence is
the image of an index permutation sorted by `(distance, index)` — assigns
each returned document the score `1 - distance`, and returns exactly the
first `top_k` of that order: the permutation does not depend on `top_k`,
which only truncates the output. -/
theorem claim_C3_rerank_stable_sort (queryStr : String) (documents : List RDoc)
    (distances : List ℚ)
    (hlen : distances.length = documents.length)
    (hdistinct : documents.Pairwise (fun a b => a.text ≠ b.text)) :
    ∃ σ : List ℕ,
      σ.Perm (List.range documents.length) ∧
      σ.Pairwise (fun i j => distances.getD i 0 < distances.getD j 0 ∨
        (distances.getD i 0 = distances.getD j 0 ∧ i < j)) ∧
      ∀ top_k : ℕ,
        (rerank queryStr documents distances top_k).ranked_documents =
        (σ.map (fun i => setScore (documents.getD i default)
          (1 - distances.getD i 0))).take top_k := by
  have hperm : (List.insertionSort (fun a b : ℕ × ℚ => a.2 ≤ b.2)
      ((List.range distances.length).zip distances)).Perm
      ((List.range distances.length).zip distances) := List.perm_insertionSort _ _
  have hmem : ∀ p ∈ List.insertionSort (fun a b : ℕ × ℚ => a.2 ≤ b.2)
      ((List.range distances.length).zip distances),
      p.1 < documents.length ∧ p.2 = distances.getD p.1 0 := by
    intro p hp
    have h2 := mem_zip_range distances p (hperm.mem_iff.mp hp)
    exact ⟨hlen ▸ h2.1, h2.2⟩
  have hpermfst : ((List.insertionSort (fun a b : ℕ × ℚ => a.2 ≤ b.2)
      ((List.range distances.length).zip distances)).map Prod.fst).Perm
      (List.range documents.length) := by
    refine (hperm.map Prod.fst).trans ?_
    rw [List.map_fst_zip _ _ (by rw [List.length_range]), hlen]
  have hnodup : ((List.insertionSort (fun a b : ℕ × ℚ => a.2 ≤ b.2)
      ((List.range distances.length).zip distances)).map Prod.fst).Nodup :=
    hpermfst.nodup_iff.mpr (List.nodup_range _)
  have hlex := insertionSort_pairwise_lex ((List.range distances.length).zip distances)
    (zip_range_pairwise_fst distances)
  refine ⟨(List.insertionSort (fun a b : ℕ × ℚ => a.2 ≤ b.2)
      ((List.range distances.length).zip distances)).map Prod.fst, hpermfst, ?_, ?_⟩
  · rw [List.pairwise_map]
    refine hlex.imp_of_mem ?_
    intro a b ha hb hab
    rw [← (hmem a ha).2, ← (hmem b hb).2]
    exact hab
  · intro top_k
    obtain ⟨hr, _, _, hset⟩ := rerank_fold_spec documents hdistinct
      (List.insertionSort (fun a b : ℕ × ℚ => a.2 ≤ b.2)
        ((List.range distances.length).zip distances))
      ⟨documents, []⟩ rfl (fun p hp => (hmem p hp).1) hnodup
    have hrr : (rerank queryStr documents distances top_k).ranked_documents =
        (((List.insertionSort (fun a b : ℕ × ℚ => a.2 ≤ b.2)
            ((List.range distances.length).zip distances)).foldl
              (rerankPass (documents.map (fun d => d.text))) ⟨documents, []⟩).ranked.map
          (fun j => ((List.insertionSort (fun a b : ℕ × ℚ => a.2 ≤ b.2)
            ((List.range distances.length).zip distances)).foldl
              (rerankPass (documents.map (fun d => d.text))) ⟨documents, []⟩).docs.getD
                j default)).take top_k := rfl
    rw [hrr, hr, List.nil_append, List.map_map, List.map_map]
    congr 1
    apply List.map_congr_left
    intro p hp
    show ((List.insertionSort (fun a b : ℕ × ℚ => a.2 ≤ b.2)
        ((List.range distances.length).zip distances)).foldl
          (rerankPass (documents.map (fun d => d.text))) ⟨documents, []⟩).docs.getD
            p.1 default =
      setScore (documents.getD p.1 default) (1 - distances.getD p.1 0)
    rw [hset p hp, ← (hmem p hp).2]

/-- C3 witness: the ordering property at a concrete pair of documents whose
distances are out of input order. -/
theorem claim_C3_rerank_stable_sort_witness :
    (([1/2, 0] : List ℚ).length =
      ([⟨"1", "a", none⟩, ⟨"2", "b", none⟩] : List RDoc).length) ∧
    ([⟨"1", "a", none⟩, ⟨"2", "b", none⟩] : List RDoc).Pairwise
      (fun a b => a.text ≠ b.text) ∧
    ∃ σ : List ℕ,
      σ.Perm (List.range ([⟨"1", "a", none⟩, ⟨"2", "b", none⟩] : List RDoc).length) ∧
      σ.Pairwise (fun i j => ([1/2, 0] : List ℚ).getD i 0 < ([1/2, 0] : List ℚ).getD j 0 ∨
        (([1/2, 0] : List ℚ).getD i 0 = ([1/2, 0] : List ℚ).getD j 0 ∧ i < j)) ∧
      ∀ top_k : ℕ,
        (rerank "q" [⟨"1", "a", none⟩, ⟨"2", "b", none⟩] [1/2, 0] top_k).ranked_documents =
        (σ.map (fun i => setScore
          (([⟨"1", "a", none⟩, ⟨"2", "b", none⟩] : List RDoc).getD i default)
          (1 - ([1/2, 0] : List ℚ).getD i 0))).take top_k :=
  ⟨rfl, by decide,
    claim_C3_rerank_stable_sort "q" [⟨"1", "a", none⟩, ⟨"2", "b", none⟩] [1/2, 0]
      rfl (by decide)⟩

end Haystack
